import Mathlib

/-!
Verification of the geometric kernel of the "stacker" module (`stacker.py`).

Boxes are axis-aligned bounding boxes in 3D, one `(min, max)` pair of
rationals per axis; translation vectors have one rational per axis.
All numeric work in the source is exact arithmetic on the given scalars
(sums, differences, means, one division in the area key), so the shallow
embedding uses `ℚ` throughout.
-/

namespace Stacker

/-- A translation vector: one scalar per axis. -/
abbrev Vec3 := Fin 3 → ℚ

/-- A bounding box: a `(min, max)` pair per axis, mirroring the
numpy shape `(3, 2)` used by the source. -/
abbrev Box := Fin 3 → ℚ × ℚ

/-- Convenience constructor for a concrete box from its six bounds. -/
def mkBox (x0 x1 y0 y1 z0 z1 : ℚ) : Box := ![(x0, x1), (y0, y1), (z0, z1)]

/-- Convenience constructor for a concrete translation vector. -/
def mkVec (x y z : ℚ) : Vec3 := ![x, y, z]

/-- The midpoint of a box on one axis; `np.mean(bounds, axis=-1)` in the
source computes exactly this per-axis mean of min and max. -/
def center (b : Box) (i : Fin 3) : ℚ := ((b i).1 + (b i).2) / 2

/-- Embedding of `translate_bounds(bounds, delta)`: shift each axis's min and max by
that axis's component of `delta` (`bounds + np.tile(delta, (2, 1)).T`). -/
def translate_bounds (b : Box) (d : Vec3) : Box :=
  fun i => ((b i).1 + d i, (b i).2 + d i)

/-- Embedding of `stack_above(base, incoming, axis, padding, centering)`:
the translation that puts `incoming`'s bottom on `axis` at `base`'s top
plus `padding`.  With `centering` the reference points on the other axes
are the two boxes' centers; without it, source and target coincide there. -/
def stack_above (base incoming : Box) (axis : Fin 3) (padding : ℚ)
    (centering : Bool) : Vec3 :=
  let source0 : Vec3 :=
    if centering then fun i => center incoming i else fun i => (incoming i).1
  let target0 : Vec3 :=
    if centering then fun i => center base i else source0
  let source : Vec3 := Function.update source0 axis (incoming axis).1
  let target : Vec3 := Function.update target0 axis ((base axis).2 + padding)
  fun i => target i - source i

/-- Embedding of `is_below(bounds_a, bounds_b, axis)`: bounding-box collision on every
axis, where the entry for the stacking axis is overridden by the test
`bounds_b[axis].max ≥ bounds_a[axis].min`.  The source computes the same
strict collision condition twice and ORs the copies together, which is
kept here verbatim. -/
def is_below (a b : Box) (axis : Fin 3) : Bool :=
  let collision : Fin 3 → Bool := fun i =>
    (decide ((b i).1 < (a i).2) && decide ((b i).2 > (a i).1))
      || (decide ((b i).2 > (a i).1) && decide ((b i).1 < (a i).2))
  let collisionU : Fin 3 → Bool :=
    Function.update collision axis (decide ((b axis).2 ≥ (a axis).1))
  decide (∀ i, collisionU i = true)

/-- The box invariant stated by the spec: on every axis, min ≤ max. -/
def boxWf (b : Box) : Prop := ∀ i, (b i).1 ≤ (b i).2

/-- The shadow test as the spec's words describe it, for comparison with
`is_below`: closed-interval intersection on the non-stacking axes (so
boxes sharing only a face still count) and `b.max ≥ a.min` on the
stacking axis. -/
def spec_is_below_closed (a b : Box) (axis : Fin 3) : Prop :=
  (∀ i, i ≠ axis → (b i).1 ≤ (a i).2 ∧ (a i).1 ≤ (b i).2)
    ∧ (a axis).1 ≤ (b axis).2

instance (b : Box) : Decidable (boxWf b) := by
  unfold boxWf; infer_instance

instance (a b : Box) (axis : Fin 3) :
    Decidable (spec_is_below_closed a b axis) := by
  unfold spec_is_below_closed; infer_instance

/-- The extent of a box on one axis, `bounds[:, :, 1] - bounds[:, :, 0]`. -/
def box_dims (b : Box) (i : Fin 3) : ℚ := (b i).2 - (b i).1

/-- The product of the three extents, `np.prod(dimensions, 1)`. -/
def box_volume (b : Box) : ℚ := box_dims b 0 * box_dims b 1 * box_dims b 2

/-- The sort key of `argsort_by_area`: volume divided by the extent on
the stacking axis (`volume / dimensions[:, axis]`). -/
def areaKey (bounds : List Box) (axis : Fin 3) (i : ℕ) : ℚ :=
  box_volume (bounds.getD i default) / box_dims (bounds.getD i default) axis

/-- The sort key of `argsort_by_height`: the lower bound on the axis
(`bounds[:, axis, 0]`). -/
def heightKey (bounds : List Box) (axis : Fin 3) (i : ℕ) : ℚ :=
  ((bounds.getD i default) axis).1

/-- The comparison relation an argsort over a numeric key induces on
indices. -/
def keyLe (key : ℕ → ℚ) : ℕ → ℕ → Prop := fun i j => key i ≤ key j

instance (key : ℕ → ℚ) : DecidableRel (keyLe key) := fun i j =>
  inferInstanceAs (Decidable (key i ≤ key j))

instance (key : ℕ → ℚ) : IsTotal ℕ (keyLe key) :=
  ⟨fun i j => le_total (key i) (key j)⟩

instance (key : ℕ → ℚ) : IsTrans ℕ (keyLe key) :=
  ⟨fun _ _ _ hij hjk => le_trans hij hjk⟩

/-- Embedding of `np.argsort` over a key: the indices `0..n-1` sorted so that the key
is non-decreasing along the result.  Modelled as a stable comparison
sort; note the source calls `np.argsort` with its default, non-stable
`kind` — this model fixes one tie order, the guaranteed contract being
only "a permutation with non-decreasing keys". -/
def argsortKey (key : ℕ → ℚ) (n : ℕ) : List ℕ :=
  List.insertionSort (keyLe key) (List.range n)

/-- Embedding of `argsort_by_area(bounds, axis)`: indices sorted ascending by
cross-sectional area orthogonal to `axis`. -/
def argsort_by_area (bounds : List Box) (axis : Fin 3) : List ℕ :=
  argsortKey (areaKey bounds axis) bounds.length

/-- Embedding of `argsort_by_height(bounds, axis)`: indices sorted ascending by lower
bound on `axis`. -/
def argsort_by_height (bounds : List Box) (axis : Fin 3) : List ℕ :=
  argsortKey (heightKey bounds axis) bounds.length

/-- Embedding of `np.argmax` over a list of scalars: the index of the first occurrence
of the maximum (`0` for the empty list, which the source never hits). -/
def argmaxIdx : List ℚ → ℕ
  | [] => 0
  | [_] => 0
  | a :: b :: t =>
    if a < (b :: t).getD (argmaxIdx (b :: t)) 0 then argmaxIdx (b :: t) + 1
    else 0

/-- The floor reference of `drop_down`: the lowest box with every axis's
max collapsed onto its min (`floor[:, 1] = floor[:, 0]`). -/
def flatten_floor (b : Box) : Box := fun i => ((b i).1, (b i).1)

/-- The loop state of `drop_down`: the working copy of all box positions,
the output rows, and the already-processed indices in sorted order. -/
structure DropState where
  work : List Box
  out : List Vec3
  processed : List ℕ

/-- The candidate surfaces considered for the current box: the floor,
followed by every already-processed box (at its current working position)
that `is_below` the current box. -/
def drop_candidates (axis : Fin 3) (floor : Box) (work : List Box)
    (processed : List ℕ) (source : Box) : List Box :=
  floor ::
    (processed.map (fun j => work.getD j default)).filter
      (fun b => is_below b source axis)

/-- The surface selected for the current box: the candidate with the
greatest upper bound on the stacking axis, first such on a tie
(`candidates[np.argmax(candidates[:, axis, 1])]`). -/
def drop_target (axis : Fin 3) (floor : Box) (work : List Box)
    (processed : List ℕ) (source : Box) : Box :=
  let cands := drop_candidates axis floor work processed source
  cands.getD (argmaxIdx (cands.map (fun b => (b axis).2))) default

/-- The translation given to the box at index `i`:
`stack_above(target, source, axis, centering=False)`, with `padding`
added on the stacking axis unless the selected surface equals the floor
(`np.array_equal(target, floor)`). -/
def drop_delta (axis : Fin 3) (padding : ℚ) (floor : Box) (work : List Box)
    (processed : List ℕ) (i : ℕ) : Vec3 :=
  let source := work.getD i default
  let target := drop_target axis floor work processed source
  let t0 := stack_above target source axis 0 false
  if target = floor then t0 else Function.update t0 axis (t0 axis + padding)

/-- One iteration of the `drop_down` loop body: record the translation
for index `i` and move the working copy of box `i` by it. -/
def drop_step (axis : Fin 3) (padding : ℚ) (floor : Box) (s : DropState)
    (i : ℕ) : DropState :=
  let t := drop_delta axis padding floor s.work s.processed i
  ⟨s.work.set i (translate_bounds (s.work.getD i default) t),
    s.out.set i t, s.processed ++ [i]⟩

/-- Embedding of `drop_down(bounds, axis, padding)`: process the boxes from lowest to
highest, resting each on the highest surface beneath it.  The source
indexes `bounds[idxs[0]]` before the loop, which raises on an empty
input; that failure is modelled as `none`. -/
def drop_down (bounds : List Box) (axis : Fin 3) (padding : ℚ) :
    Option (List Vec3) :=
  match argsort_by_height bounds axis with
  | [] => none
  | i0 :: rest =>
    let floor := flatten_floor (bounds.getD i0 default)
    let s0 : DropState :=
      ⟨bounds, List.replicate bounds.length (fun _ => 0), [i0]⟩
    some (rest.foldl (drop_step axis padding floor) s0).out

/-- Claim C8: `translate_bounds` is a pure additive shift — composing two
translations equals translating by the componentwise sum, and a single
translation shifts each min and max by exactly that axis's delta. -/
theorem translate_bounds_additive (b : Box) (d1 d2 : Vec3) :
    translate_bounds (translate_bounds b d1) d2 = translate_bounds b (d1 + d2)
      ∧ ∀ i, translate_bounds b d1 i = ((b i).1 + d1 i, (b i).2 + d1 i) := by
  constructor
  · funext i
    simp only [translate_bounds, Pi.add_apply]
    exact Prod.ext (by ring) (by ring)
  · intro i
    rfl

/-- Claim C1: the translation returned by `stack_above` puts the incoming
box's bottom on the stacking axis at the base's top plus padding, for both
centering settings; with centering the translated incoming box's centers
on the other two axes match the base's centers, and without centering the
translation is exactly zero on those axes. -/
theorem stack_above_correct (base incoming : Box) (axis : Fin 3)
    (padding : ℚ) (centering : Bool) :
    (translate_bounds incoming
        (stack_above base incoming axis padding centering) axis).1
      = (base axis).2 + padding
    ∧ (∀ i, i ≠ axis → centering = true →
        center (translate_bounds incoming
          (stack_above base incoming axis padding centering)) i = center base i)
    ∧ (∀ i, i ≠ axis → centering = false →
        stack_above base incoming axis padding centering i = 0) := by
  refine ⟨?_, ?_, ?_⟩
  · simp only [stack_above, translate_bounds, Function.update_same]
    ring
  · intro i hi hc
    subst hc
    simp only [stack_above, translate_bounds, center, if_true,
      Function.update_noteq hi]
    ring
  · intro i hi hc
    subst hc
    simp only [stack_above, Bool.false_eq_true, if_false,
      Function.update_noteq hi]
    ring

/-- Counterexample to claim C3: the boxes `[[0,1],[0,1],[0,1]]` and
`[[1,2],[0,1],[2,3]]` touch (share a face) on axis 0, so the closed-interval
criterion of the claim holds, yet `is_below` returns `false` because the
source uses strict inequalities for the horizontal collision test. -/
theorem is_below_touch_cex :
    spec_is_below_closed (mkBox 0 1 0 1 0 1) (mkBox 1 2 0 1 2 3) 2
      ∧ is_below (mkBox 0 1 0 1 0 1) (mkBox 1 2 0 1 2 3) 2 = false := by
  constructor
  · decide
  · decide

/-- Amended claim C3: `is_below A B axis` is true iff A and B strictly
overlap on both non-stacking axes (open-interval intersection —
`b.min < a.max` and `b.max > a.min`; sharing only a face does not count)
and B's upper bound on the stacking axis is at least A's lower bound. -/
theorem is_below_iff (a b : Box) (axis : Fin 3) :
    is_below a b axis = true ↔
      ((∀ i, i ≠ axis → (b i).1 < (a i).2 ∧ (a i).1 < (b i).2)
        ∧ (a axis).1 ≤ (b axis).2) := by
  simp only [is_below, decide_eq_true_eq]
  constructor
  · intro h
    refine ⟨fun i hi => ?_, ?_⟩
    · have hc := h i
      rw [Function.update_noteq hi] at hc
      simp only [Bool.or_eq_true, Bool.and_eq_true, decide_eq_true_eq] at hc
      rcases hc with ⟨h1, h2⟩ | ⟨h1, h2⟩
      · exact ⟨h1, h2⟩
      · exact ⟨h2, h1⟩
    · have hc := h axis
      rw [Function.update_same] at hc
      simpa [ge_iff_le, decide_eq_true_eq] using hc
  · rintro ⟨h1, h2⟩ i
    by_cases hi : i = axis
    · subst hi
      rw [Function.update_same]
      simpa [ge_iff_le, decide_eq_true_eq] using h2
    · rw [Function.update_noteq hi]
      rcases h1 i hi with ⟨ha, hb⟩
      simp only [Bool.or_eq_true, Bool.and_eq_true, decide_eq_true_eq]
      exact Or.inl ⟨ha, hb⟩

/-- Witness for the amended C3: two intersecting boxes from the source's
own test data satisfy the strict-overlap criterion and `is_below`. -/
theorem is_below_iff_witness :
    is_below (mkBox 1 3 1 3 1 3) (mkBox 2 3 2 4 2 3) 2 = true :=
  (is_below_iff (mkBox 1 3 1 3 1 3) (mkBox 2 3 2 4 2 3) 2).mpr (by decide)

/-- Claim C7: each argsort returns a permutation of `0..N-1`, and its key
(lower bound on the axis for height, volume over axis extent for area) is
non-decreasing along the returned index order. -/
theorem argsort_correct (bounds : List Box) (axis : Fin 3) :
    (argsort_by_height bounds axis).Perm (List.range bounds.length)
    ∧ List.Pairwise
        (fun i j => heightKey bounds axis i ≤ heightKey bounds axis j)
        (argsort_by_height bounds axis)
    ∧ (argsort_by_area bounds axis).Perm (List.range bounds.length)
    ∧ List.Pairwise
        (fun i j => areaKey bounds axis i ≤ areaKey bounds axis j)
        (argsort_by_area bounds axis) := by
  refine ⟨List.perm_insertionSort _ _, ?_, List.perm_insertionSort _ _, ?_⟩
  · exact List.sorted_insertionSort (keyLe (heightKey bounds axis)) _
  · exact List.sorted_insertionSort (keyLe (areaKey bounds axis)) _

unseal Rat.sub Rat.add Rat.mul Rat.inv in
/-- Claim C9: a collection may satisfy the `min ≤ max` invariant and still
contain a box of zero extent on the chosen axis, in which case the sort
key of `argsort_by_area` for that box is a division whose divisor is
zero — the area computation is not total over invariant-satisfying
inputs.  (In this exact-arithmetic model division by zero is the junk
value `0`, so the zero divisor itself is what is exhibited.) -/
theorem argsort_by_area_div_zero :
    boxWf (mkBox 0 1 0 1 3 3)
    ∧ box_dims (mkBox 0 1 0 1 3 3) 2 = 0
    ∧ areaKey [mkBox 0 1 0 1 0 1, mkBox 0 1 0 1 3 3] 2 1
        = box_volume (mkBox 0 1 0 1 3 3) / 0 := by
  refine ⟨by decide, by decide, ?_⟩
  decide

/-- Witness for C1 at a concrete input: base `[[1,2],[3,4],[5,6]]`,
incoming `[[10,11],[12,13],[14,15]]`, axis 2, padding 1. -/
theorem stack_above_correct_witness :
    center (translate_bounds (mkBox 10 11 12 13 14 15)
        (stack_above (mkBox 1 2 3 4 5 6) (mkBox 10 11 12 13 14 15) 2 1 true)) 0
      = center (mkBox 1 2 3 4 5 6) 0 :=
  (stack_above_correct (mkBox 1 2 3 4 5 6) (mkBox 10 11 12 13 14 15)
      2 1 true).2.1 0 (by decide) rfl

lemma option_eq_some_of_getD {α : Type} (o : Option α) (d l : α)
    (h1 : o.isSome = true) (h2 : o.getD d = l) : o = some l := by
  cases o with
  | none => simp at h1
  | some a => simpa using h2

unseal Rat.sub Rat.add Rat.mul Rat.inv in
/-- Claim C2: `drop_down` on the spec's two literal inputs returns
exactly the stated translations — the stacked column drops by
`[0,0,0],[0,0,-1],[0,0,-3]`, and the horizontally disjoint boxes both
drop to the floor with `[0,0,0],[0,0,-2],[0,0,-2]`. -/
theorem drop_down_literal_tests :
    drop_down [mkBox 1 3 1 3 1 2, mkBox 2 3 2 4 3 4, mkBox 0 2 0 2 5 6] 2 0
      = some [mkVec 0 0 0, mkVec 0 0 (-1), mkVec 0 0 (-3)]
    ∧ drop_down [mkBox 1 2 1 2 1 2, mkBox 2 3 2 3 3 4, mkBox 2 3 2 3 4 5] 2 0
      = some [mkVec 0 0 0, mkVec 0 0 (-2), mkVec 0 0 (-2)] :=
  ⟨option_eq_some_of_getD _ [] _ (by decide) (by decide),
    option_eq_some_of_getD _ [] _ (by decide) (by decide)⟩

lemma argmaxIdx_lt_length (l : List ℚ) (h : l ≠ []) :
    argmaxIdx l < l.length := by
  induction l with
  | nil => exact absurd rfl h
  | cons a t ih =>
    cases t with
    | nil => simp [argmaxIdx]
    | cons b u =>
      simp only [argmaxIdx]
      split
      · exact Nat.succ_lt_succ (ih (by simp))
      · simp

lemma argmaxIdx_ge (l : List ℚ) (k : ℕ) (hk : k < l.length) :
    l.getD k 0 ≤ l.getD (argmaxIdx l) 0 := by
  induction l generalizing k with
  | nil => simp at hk
  | cons a t ih =>
    cases t with
    | nil =>
      have hk0 : k = 0 := Nat.lt_one_iff.mp (by simpa using hk)
      subst hk0
      simp [argmaxIdx]
    | cons b u =>
      simp only [argmaxIdx]
      split
      case isTrue h =>
        cases k with
        | zero =>
          simp only [List.getD_cons_zero, List.getD_cons_succ]
          exact le_of_lt h
        | succ k =>
          simp only [List.getD_cons_succ]
          exact ih k (by simpa using hk)
      case isFalse h =>
        push_neg at h
        cases k with
        | zero => simp
        | succ k =>
          simp only [List.getD_cons_succ, List.getD_cons_zero]
          exact le_trans (ih k (by simpa using hk)) h

lemma argmaxIdx_first (l : List ℚ) (k : ℕ) (hk : k < argmaxIdx l) :
    l.getD k 0 < l.getD (argmaxIdx l) 0 := by
  induction l generalizing k with
  | nil => simp [argmaxIdx] at hk
  | cons a t ih =>
    cases t with
    | nil => simp [argmaxIdx] at hk
    | cons b u =>
      by_cases h : a < (b :: u).getD (argmaxIdx (b :: u)) 0
      · simp only [argmaxIdx, if_pos h] at hk ⊢
        cases k with
        | zero =>
          simpa only [List.getD_cons_zero, List.getD_cons_succ] using h
        | succ k =>
          simp only [List.getD_cons_succ]
          exact ih k (Nat.lt_of_succ_lt_succ hk)
      · simp only [argmaxIdx, if_neg h] at hk
        exact absurd hk (Nat.not_lt_zero k)

lemma getD_map_top (f : Box → ℚ) (l : List Box) (k : ℕ)
    (hk : k < l.length) :
    (l.map f).getD k 0 = f (l.getD k default) := by
  induction l generalizing k with
  | nil => simp at hk
  | cons c t ih =>
    cases k with
    | zero => simp
    | succ k =>
      simp only [List.map_cons, List.getD_cons_succ]
      exact ih k (by simpa using hk)

lemma getD_mem {α : Type} (l : List α) (k : ℕ) (d : α)
    (hk : k < l.length) : l.getD k d ∈ l := by
  induction l generalizing k with
  | nil => simp at hk
  | cons c t ih =>
    cases k with
    | zero => simp
    | succ k =>
      simp only [List.getD_cons_succ]
      exact List.mem_cons_of_mem _ (ih k (by simpa using hk))

lemma getD_set_ne {α : Type} (l : List α) (i k : ℕ) (a d : α)
    (h : i ≠ k) : (l.set i a).getD k d = l.getD k d := by
  induction l generalizing i k with
  | nil => simp
  | cons c t ih =>
    cases i with
    | zero =>
      cases k with
      | zero => exact absurd rfl h
      | succ k => simp
    | succ i =>
      cases k with
      | zero => simp
      | succ k =>
        simp only [List.set_cons_succ, List.getD_cons_succ]
        exact ih i k (fun hik => h (by rw [hik]))

lemma mem_set_cases {α : Type} (l : List α) (i : ℕ) (a v : α)
    (h : v ∈ l.set i a) : v = a ∨ v ∈ l := by
  induction l generalizing i with
  | nil => simp at h
  | cons c t ih =>
    cases i with
    | zero =>
      rcases List.mem_cons.mp h with h1 | h1
      · exact Or.inl h1
      · exact Or.inr (List.mem_cons_of_mem _ h1)
    | succ i =>
      rcases List.mem_cons.mp h with h1 | h1
      · exact Or.inr (h1 ▸ List.mem_cons_self _ _)
      · rcases ih i h1 with h2 | h2
        · exact Or.inl h2
        · exact Or.inr (List.mem_cons_of_mem _ h2)

lemma getD_replicate {α : Type} (n k : ℕ) (c : α) :
    (List.replicate n c).getD k c = c := by
  induction n generalizing k with
  | zero => simp
  | succ n ih =>
    cases k with
    | zero => simp [List.replicate_succ]
    | succ k =>
      rw [List.replicate_succ, List.getD_cons_succ]
      exact ih k

lemma stack_above_nonaxis (base inc : Box) (axis : Fin 3) (p : ℚ)
    (j : Fin 3) (hj : j ≠ axis) : stack_above base inc axis p false j = 0 := by
  simp only [stack_above, Bool.false_eq_true, if_false,
    Function.update_noteq hj]
  ring

lemma drop_down_eq_cons (bounds : List Box) (axis : Fin 3) (padding : ℚ)
    (i0 : ℕ) (rest : List ℕ)
    (e : argsort_by_height bounds axis = i0 :: rest) :
    drop_down bounds axis padding
      = some ((rest.foldl (drop_step axis padding
          (flatten_floor (bounds.getD i0 default)))
          ⟨bounds, List.replicate bounds.length (fun _ => 0), [i0]⟩).out) := by
  unfold drop_down
  rw [e]

lemma drop_down_eq_none (bounds : List Box) (axis : Fin 3) (padding : ℚ)
    (e : argsort_by_height bounds axis = []) :
    drop_down bounds axis padding = none := by
  unfold drop_down
  rw [e]

lemma drop_fold_invariant (axis : Fin 3) (padding : ℚ) (floor : Box)
    (i0 : ℕ) (n : ℕ) (rest : List ℕ) (s : DropState)
    (hne : ∀ i ∈ rest, i ≠ i0)
    (h1 : s.out.length = n)
    (h2 : s.out.getD i0 (fun _ => 0) = (fun _ => 0))
    (h3 : ∀ v ∈ s.out, ∀ j, j ≠ axis → v j = 0) :
    (rest.foldl (drop_step axis padding floor) s).out.length = n
      ∧ (rest.foldl (drop_step axis padding floor) s).out.getD i0
          (fun _ => 0) = (fun _ => 0)
      ∧ ∀ v ∈ (rest.foldl (drop_step axis padding floor) s).out,
          ∀ j, j ≠ axis → v j = 0 := by
  induction rest generalizing s with
  | nil => exact ⟨h1, h2, h3⟩
  | cons i tl ih =>
    simp only [List.foldl_cons]
    apply ih
    · intro x hx
      exact hne x (List.mem_cons_of_mem _ hx)
    · simp only [drop_step]
      rw [List.length_set]
      exact h1
    · simp only [drop_step]
      rw [getD_set_ne _ _ _ _ _ (hne i (List.mem_cons_self _ _))]
      exact h2
    · simp only [drop_step]
      intro v hv j hj
      rcases mem_set_cases _ _ _ _ hv with hv1 | hv2
      · subst hv1
        simp only [drop_delta]
        split
        · exact stack_above_nonaxis _ _ _ _ j hj
        · rw [Function.update_noteq hj]
          exact stack_above_nonaxis _ _ _ _ j hj
      · exact h3 v hv2 j hj

/-- Claim C5: in the `drop_down` loop body, `padding` is added to the
stacking-axis component of the translation exactly when the selected
surface is not the floor: a box whose selected surface is the floor gets
the unpadded `stack_above` translation unchanged, and otherwise the
stacking-axis component gains `padding` while the other components are
untouched. -/
theorem drop_delta_padding_iff (axis : Fin 3) (padding : ℚ) (floor : Box)
    (work : List Box) (processed : List ℕ) (i : ℕ) :
    (drop_target axis floor work processed (work.getD i default) = floor →
        drop_delta axis padding floor work processed i
          = stack_above floor (work.getD i default) axis 0 false)
      ∧ (drop_target axis floor work processed (work.getD i default) ≠ floor →
          drop_delta axis padding floor work processed i axis
              = stack_above (drop_target axis floor work processed
                  (work.getD i default)) (work.getD i default) axis 0 false axis
                + padding
            ∧ ∀ j, j ≠ axis →
                drop_delta axis padding floor work processed i j
                  = stack_above (drop_target axis floor work processed
                      (work.getD i default)) (work.getD i default) axis 0 false
                      j) := by
  constructor
  · intro h
    simp only [drop_delta]
    rw [if_pos h, h]
  · intro h
    simp only [drop_delta]
    rw [if_neg h]
    exact ⟨Function.update_same _ _ _, fun j hj => Function.update_noteq hj _ _⟩

/-- Witness for C5: with no processed boxes the only candidate surface is
the floor, and the delta is the unpadded `stack_above` onto the floor
even with `padding = 5`. -/
theorem drop_delta_padding_iff_witness :
    drop_delta 2 5 (flatten_floor (mkBox 0 1 0 1 0 1)) [mkBox 0 1 0 1 2 3]
        [] 0
      = stack_above (flatten_floor (mkBox 0 1 0 1 0 1))
          (List.getD [mkBox 0 1 0 1 2 3] 0 default) 2 0 false :=
  (drop_delta_padding_iff 2 5 (flatten_floor (mkBox 0 1 0 1 0 1))
      [mkBox 0 1 0 1 2 3] [] 0).1 (by decide)

/-- Claim C10: the floor is placed first in the candidate list; the
selected surface is a candidate whose top bounds every candidate's top,
with every candidate placed before it strictly lower (so the first of
several tied maxima is selected); consequently, whenever no candidate
tops the floor, the floor itself is selected and the delta carries no
padding. -/
theorem drop_target_first_max (axis : Fin 3) (padding : ℚ) (floor : Box)
    (work : List Box) (processed : List ℕ) (i : ℕ) :
    (drop_candidates axis floor work processed
        (work.getD i default)).getD 0 default = floor
    ∧ (∀ m, m < (drop_candidates axis floor work processed
          (work.getD i default)).length →
        (((drop_candidates axis floor work processed
            (work.getD i default)).getD m default) axis).2
          ≤ ((drop_target axis floor work processed
              (work.getD i default)) axis).2)
    ∧ (∀ m, m < argmaxIdx ((drop_candidates axis floor work processed
          (work.getD i default)).map (fun b => (b axis).2)) →
        (((drop_candidates axis floor work processed
            (work.getD i default)).getD m default) axis).2
          < ((drop_target axis floor work processed
              (work.getD i default)) axis).2)
    ∧ ((∀ b ∈ drop_candidates axis floor work processed
          (work.getD i default), (b axis).2 ≤ (floor axis).2) →
        drop_target axis floor work processed (work.getD i default) = floor
        ∧ drop_delta axis padding floor work processed i
            = stack_above floor (work.getD i default) axis 0 false) := by
  have hne : drop_candidates axis floor work processed
      (work.getD i default) ≠ [] := by
    simp [drop_candidates]
  have hlen : ((drop_candidates axis floor work processed
        (work.getD i default)).map (fun b => (b axis).2)).length
      = (drop_candidates axis floor work processed
          (work.getD i default)).length := List.length_map _ _
  have hklt : argmaxIdx ((drop_candidates axis floor work processed
        (work.getD i default)).map (fun b => (b axis).2))
      < (drop_candidates axis floor work processed
          (work.getD i default)).length := by
    rw [← hlen]
    exact argmaxIdx_lt_length _ (by simpa using hne)
  have htarget : drop_target axis floor work processed (work.getD i default)
      = (drop_candidates axis floor work processed
          (work.getD i default)).getD
          (argmaxIdx ((drop_candidates axis floor work processed
            (work.getD i default)).map (fun b => (b axis).2))) default := rfl
  have htop : ((drop_target axis floor work processed
        (work.getD i default)) axis).2
      = ((drop_candidates axis floor work processed
          (work.getD i default)).map (fun b => (b axis).2)).getD
          (argmaxIdx ((drop_candidates axis floor work processed
            (work.getD i default)).map (fun b => (b axis).2))) 0 := by
    rw [htarget]
    exact (getD_map_top (fun b => (b axis).2) _ _ hklt).symm
  refine ⟨rfl, ?_, ?_, ?_⟩
  · intro m hm
    rw [htop, ← getD_map_top (fun b => (b axis).2) _ m hm]
    exact argmaxIdx_ge _ m (by rwa [hlen])
  · intro m hm
    have hmlt : m < (drop_candidates axis floor work processed
        (work.getD i default)).length := lt_trans hm hklt
    rw [htop, ← getD_map_top (fun b => (b axis).2) _ m hmlt]
    exact argmaxIdx_first _ m hm
  · intro hle
    have hk0 : argmaxIdx ((drop_candidates axis floor work processed
        (work.getD i default)).map (fun b => (b axis).2)) = 0 := by
      by_contra hk0
      have h01 := argmaxIdx_first ((drop_candidates axis floor work processed
          (work.getD i default)).map (fun b => (b axis).2)) 0
        (Nat.pos_of_ne_zero hk0)
      rw [← htop] at h01
      have hfl : (((drop_candidates axis floor work processed
          (work.getD i default)).map (fun b => (b axis).2))).getD 0 0
          = (floor axis).2 := by
        simp [drop_candidates]
      rw [hfl] at h01
      have hmem : (drop_candidates axis floor work processed
          (work.getD i default)).getD (argmaxIdx ((drop_candidates axis floor
            work processed (work.getD i default)).map (fun b => (b axis).2)))
            default
          ∈ drop_candidates axis floor work processed
            (work.getD i default) := getD_mem _ _ _ hklt
      have hub := hle _ hmem
      exact absurd (lt_of_lt_of_le h01 hub) (lt_irrefl _)
    have htf : drop_target axis floor work processed
        (work.getD i default) = floor := by
      show (drop_candidates axis floor work processed
          (work.getD i default)).getD _ default = floor
      rw [hk0]
      rfl
    refine ⟨htf, ?_⟩
    simp only [drop_delta]
    rw [if_pos htf, htf]

/-- Witness for C10: with no processed boxes every candidate top is at
most the floor's, the floor is selected and padding 7 is not added. -/
theorem drop_target_first_max_witness :
    drop_target 2 (flatten_floor (mkBox 0 1 0 1 0 1)) [mkBox 2 3 2 3 4 5]
        [] (List.getD [mkBox 2 3 2 3 4 5] 0 default)
      = flatten_floor (mkBox 0 1 0 1 0 1)
    ∧ drop_delta 2 7 (flatten_floor (mkBox 0 1 0 1 0 1)) [mkBox 2 3 2 3 4 5]
        [] 0
      = stack_above (flatten_floor (mkBox 0 1 0 1 0 1))
          (List.getD [mkBox 2 3 2 3 4 5] 0 default) 2 0 false :=
  (drop_target_first_max 2 7 (flatten_floor (mkBox 0 1 0 1 0 1))
      [mkBox 2 3 2 3 4 5] [] 0).2.2.2 (by decide)

/-- Claim C6: whenever `drop_down` returns, it returns one translation
per input box, indexed by original input position: the entry of the
lowest box (the head of the height sort) is the zero vector, and every
returned translation is zero on both non-stacking axes. -/
theorem drop_down_output_shape (bounds : List Box) (axis : Fin 3)
    (padding : ℚ) (out : List Vec3)
    (h : drop_down bounds axis padding = some out) :
    out.length = bounds.length
    ∧ out.getD ((argsort_by_height bounds axis).headD 0) (fun _ => 0)
        = (fun _ => 0)
    ∧ ∀ v ∈ out, ∀ j, j ≠ axis → v j = 0 := by
  rcases e : argsort_by_height bounds axis with _ | ⟨i0, rest⟩
  · rw [drop_down_eq_none bounds axis padding e] at h
    simp at h
  · rw [drop_down_eq_cons bounds axis padding i0 rest e] at h
    have hout := (Option.some.inj h).symm
    have hi0 : ∀ i ∈ rest, i ≠ i0 := by
      have hnd : (argsort_by_height bounds axis).Nodup :=
        ((List.perm_insertionSort _ _).nodup_iff).mpr
          (List.nodup_range _)
      rw [e] at hnd
      rcases List.nodup_cons.mp hnd with ⟨hnotmem, _⟩
      intro i hi hcontra
      exact hnotmem (hcontra ▸ hi)
    have hinv := drop_fold_invariant axis padding
      (flatten_floor (bounds.getD i0 default)) i0 bounds.length rest
      ⟨bounds, List.replicate bounds.length (fun _ => 0), [i0]⟩ hi0
      (by simp)
      (getD_replicate _ _ _)
      (by
        intro v hv j _
        rw [List.eq_of_mem_replicate hv])
    simp only [List.headD_cons]
    rw [hout]
    exact hinv

unseal Rat.sub Rat.add Rat.mul Rat.inv in
/-- Witness for C6, on the source's own no-floor-padding test input:
two boxes, axis 2, padding 1. -/
theorem drop_down_output_shape_witness :
    List.length [mkVec 0 0 0, mkVec 0 0 (-2)]
        = List.length [mkBox 0 1 0 1 0 4, mkBox 0 1 2 3 2 3]
    ∧ List.getD [mkVec 0 0 0, mkVec 0 0 (-2)]
        ((argsort_by_height [mkBox 0 1 0 1 0 4, mkBox 0 1 2 3 2 3] 2).headD 0)
        (fun _ => 0) = (fun _ => 0)
    ∧ ∀ v ∈ [mkVec 0 0 0, mkVec 0 0 (-2)], ∀ j, j ≠ (2 : Fin 3) → v j = 0 :=
  drop_down_output_shape [mkBox 0 1 0 1 0 4, mkBox 0 1 2 3 2 3] 2 1
    [mkVec 0 0 0, mkVec 0 0 (-2)]
    (option_eq_some_of_getD _ [] _ (by decide) (by decide))

end Stacker
